import Mathlib

/-!
Verification of the `ew` metaheuristic optimization engine (PSO + GA +
statistics aggregation) against its specification.

The repository ships the examples and tests of the engine
(`examples/particleswarm-*.rs`, `tests/genetic-schwefel.rs`,
`tests/particleswarm-paraboloid.rs`); the engine library itself
(`ew::tools::statistics`, `ew::tools::stopchecker`, `ew::particleswarm`,
`ew::genetic`) is not among the shipped sources, so its operations are
modelled here from the specification's words and marked as such.
Coordinates and goal values are modelled as rationals (exact arithmetic in
place of the examples' `f32`/`f64`), and as reals where a square root is
required (Euclidean velocity magnitude, standard deviation).
-/

/-- A candidate point of the search space: an ordered sequence of
coordinates (`Vec<Coordinate>` in the examples). -/
abbrev Solution : Type := List ℚ

/-- Modelled from the spec: `Statistics` (from the missing
`ew::tools::statistics`) accumulates one optional `(solution, goal)`
result per run, and per run a convergence sequence of the goal values
observed at each iteration. -/
structure Statistics where
  results : List (Option (Solution × ℚ))
  convergence : List (List ℚ)
deriving DecidableEq

/-- Modelled from the spec: `Statistics::unite` concatenates the run
lists and the convergence series of the two statistics objects. -/
def Statistics.unite (a b : Statistics) : Statistics :=
  ⟨a.results ++ b.results, a.convergence ++ b.convergence⟩

/-- Number of accumulated runs. -/
def Statistics.get_run_count (s : Statistics) : ℕ := s.results.length

/-- Goal values of the successful runs, in run order. -/
def Statistics.goalValues (s : Statistics) : List ℚ :=
  s.results.filterMap (fun r => r.map Prod.snd)

/-- Modelled from the spec: the average of the recorded goal values;
empty (`none`) when zero runs are present. -/
def Statistics.get_average_goal (s : Statistics) : Option ℚ :=
  if s.results.isEmpty then none
  else some (s.goalValues.sum / (s.goalValues.length : ℚ))

/-- The population variance of the recorded goal values (the quantity
whose square root the engine reports as standard deviation). -/
def Statistics.goalVariance (s : Statistics) : ℚ :=
  ((s.goalValues.map
      (fun g => (g - s.goalValues.sum / (s.goalValues.length : ℚ)) ^ 2)).sum)
    / (s.goalValues.length : ℚ)

/-- Modelled from the spec: the standard deviation of the recorded goal
values; empty (`none`) when zero runs are present. -/
noncomputable def Statistics.get_standard_deviation_goal (s : Statistics) :
    Option ℝ :=
  if s.results.isEmpty then none else some (Real.sqrt (s.goalVariance : ℝ))

/-- Modelled from the spec: success rate of the runs against a predicate
(success against a known expected solution within a per-dimension
tolerance); empty (`none`) when zero runs are present. -/
def Statistics.get_success_rate (s : Statistics) (p : Solution → Bool) :
    Option ℚ :=
  if s.results.isEmpty then none
  else some
    ((s.results.countP
        (fun r => match r with
          | some (sol, _) => p sol
          | none => false) : ℚ) / (s.results.length : ℚ))

/-- The goal values recorded at iteration index `n`, one per run whose
convergence sequence reached that index. -/
def Statistics.convergenceAt (s : Statistics) (n : ℕ) : List ℚ :=
  s.convergence.filterMap (fun run => run[n]?)

/-- Length of the longest recorded convergence sequence. -/
def Statistics.maxConvLen (s : Statistics) : ℕ :=
  (s.convergence.map List.length).foldr max 0

/-- Modelled from the spec: the average convergence curve — per iteration
index, the average goal value over the runs that reached that index,
`none` where no run reached it. -/
def Statistics.get_average_convergence (s : Statistics) : List (Option ℚ) :=
  (List.range s.maxConvLen).map
    (fun n =>
      if (s.convergenceAt n).isEmpty then none
      else some ((s.convergenceAt n).sum / ((s.convergenceAt n).length : ℚ)))

/-- Modelled from the spec: `CallCountData` (from the missing
`ew::tools::statistics`) accumulates the number of goal-function
invocations of each run. -/
structure CallCountData where
  counts : List ℕ
deriving DecidableEq

/-- Modelled from the spec: `CallCountData::unite` concatenates the
per-run call counts of the two objects. -/
def CallCountData.unite (a b : CallCountData) : CallCountData :=
  ⟨a.counts ++ b.counts⟩

/-- Modelled from the spec: the average per-run call count; empty
(`none`) when zero runs are present. -/
def CallCountData.get_average_call_count (d : CallCountData) : Option ℚ :=
  if d.counts.isEmpty then none
  else some ((d.counts.sum : ℚ) / (d.counts.length : ℚ))

/-- Folding `unite` over a list of `CallCountData`, as the workers and the
coordinator of the Schwefel statistics example do with results arriving
one at a time. -/
def CallCountData.uniteAll (l : List CallCountData) : CallCountData :=
  l.foldl CallCountData.unite ⟨[]⟩

/-- Folding `Statistics.unite` over a list of statistics objects, as the
workers and the coordinator of the Schwefel statistics example do. -/
def Statistics.uniteAll (l : List Statistics) : Statistics :=
  l.foldl Statistics.unite ⟨[], []⟩

theorem Statistics.unite_results (a b : Statistics) :
    (a.unite b).results = a.results ++ b.results := rfl

theorem Statistics.goalValues_unite (a b : Statistics) :
    (a.unite b).goalValues = a.goalValues ++ b.goalValues := by
  simp [Statistics.goalValues, Statistics.unite]

theorem isEmpty_append_comm {α : Type} (l1 l2 : List α) :
    (l1 ++ l2).isEmpty = (l2 ++ l1).isEmpty := by
  cases l1 <;> cases l2 <;> simp

theorem foldrMax_append (a b : List ℕ) :
    (a ++ b).foldr max 0 = max (a.foldr max 0) (b.foldr max 0) := by
  induction a with
  | nil => simp
  | cons x t ih => simp [ih, Nat.max_assoc]

theorem Statistics.get_run_count_unite_comm (a b : Statistics) :
    (a.unite b).get_run_count = (b.unite a).get_run_count := by
  simp [Statistics.get_run_count, Statistics.unite, Nat.add_comm]

theorem Statistics.get_success_rate_unite_comm (a b : Statistics)
    (p : Solution → Bool) :
    (a.unite b).get_success_rate p = (b.unite a).get_success_rate p := by
  simp only [Statistics.get_success_rate, Statistics.unite_results]
  rw [isEmpty_append_comm]
  by_cases h : (b.results ++ a.results).isEmpty
  · simp [h]
  · simp only [h, if_neg, Bool.false_eq_true, not_false_iff]
    congr 1
    rw [List.countP_append, List.countP_append, List.length_append,
      List.length_append, Nat.add_comm (a.results.countP _),
      Nat.add_comm a.results.length]

theorem Statistics.get_average_goal_unite_comm (a b : Statistics) :
    (a.unite b).get_average_goal = (b.unite a).get_average_goal := by
  simp only [Statistics.get_average_goal, Statistics.unite_results,
    Statistics.goalValues_unite]
  rw [isEmpty_append_comm]
  by_cases h : (b.results ++ a.results).isEmpty
  · simp [h]
  · simp only [h, if_neg, Bool.false_eq_true, not_false_iff]
    congr 1
    rw [List.sum_append, List.sum_append, List.length_append,
      List.length_append, add_comm a.goalValues.sum,
      Nat.add_comm a.goalValues.length]

theorem Statistics.goalVariance_unite_comm (a b : Statistics) :
    (a.unite b).goalVariance = (b.unite a).goalVariance := by
  simp only [Statistics.goalVariance, Statistics.goalValues_unite]
  have h1 : (a.goalValues ++ b.goalValues).sum
      = (b.goalValues ++ a.goalValues).sum := by
    rw [List.sum_append, List.sum_append, add_comm]
  have h2 : ((a.goalValues ++ b.goalValues).length : ℚ)
      = ((b.goalValues ++ a.goalValues).length : ℚ) := by
    rw [List.length_append, List.length_append, Nat.add_comm]
  rw [h1, h2]
  congr 1
  rw [List.map_append, List.map_append]
  simp [List.sum_append, add_comm]

theorem Statistics.get_standard_deviation_goal_unite_comm (a b : Statistics) :
    (a.unite b).get_standard_deviation_goal
      = (b.unite a).get_standard_deviation_goal := by
  simp only [Statistics.get_standard_deviation_goal, Statistics.unite_results,
    Statistics.goalVariance_unite_comm a b]
  rw [isEmpty_append_comm]

theorem Statistics.convergenceAt_unite (a b : Statistics) (n : ℕ) :
    (a.unite b).convergenceAt n = a.convergenceAt n ++ b.convergenceAt n := by
  simp [Statistics.convergenceAt, Statistics.unite]

theorem Statistics.maxConvLen_unite_comm (a b : Statistics) :
    (a.unite b).maxConvLen = (b.unite a).maxConvLen := by
  unfold Statistics.maxConvLen
  rw [show (a.unite b).convergence = a.convergence ++ b.convergence from rfl,
    show (b.unite a).convergence = b.convergence ++ a.convergence from rfl,
    List.map_append, List.map_append, foldrMax_append, foldrMax_append,
    Nat.max_comm]

theorem Statistics.get_average_convergence_unite_comm (a b : Statistics) :
    (a.unite b).get_average_convergence
      = (b.unite a).get_average_convergence := by
  unfold Statistics.get_average_convergence
  rw [Statistics.maxConvLen_unite_comm]
  apply List.map_congr_left
  intro n _
  rw [Statistics.convergenceAt_unite, Statistics.convergenceAt_unite,
    isEmpty_append_comm]
  by_cases h : (b.convergenceAt n ++ a.convergenceAt n).isEmpty
  · simp [h]
  · simp only [h, if_neg, Bool.false_eq_true, not_false_iff]
    congr 1
    rw [List.sum_append, List.sum_append, List.length_append,
      List.length_append, add_comm (a.convergenceAt n).sum,
      Nat.add_comm (a.convergenceAt n).length]

/-- C1: `Statistics::unite` is associative — uniting (A,B) then C equals
uniting A then (B,C), run lists and convergence series included — and
order-insensitive for the exposed summary metrics: run count, success
rate, average goal, standard deviation of goal, and average convergence
series are the same whichever order two statistics objects are united in,
so arrival order does not affect the final aggregate. -/
theorem statistics_unite_assoc_comm :
    (∀ a b c : Statistics, (a.unite b).unite c = a.unite (b.unite c)) ∧
    (∀ (a b : Statistics) (p : Solution → Bool),
      (a.unite b).get_run_count = (b.unite a).get_run_count ∧
      (a.unite b).get_success_rate p = (b.unite a).get_success_rate p ∧
      (a.unite b).get_average_goal = (b.unite a).get_average_goal ∧
      (a.unite b).get_standard_deviation_goal
        = (b.unite a).get_standard_deviation_goal ∧
      (a.unite b).get_average_convergence
        = (b.unite a).get_average_convergence) := by
  constructor
  · intro a b c
    simp [Statistics.unite]
  · intro a b p
    exact ⟨Statistics.get_run_count_unite_comm a b,
      Statistics.get_success_rate_unite_comm a b p,
      Statistics.get_average_goal_unite_comm a b,
      Statistics.get_standard_deviation_goal_unite_comm a b,
      Statistics.get_average_convergence_unite_comm a b⟩

/-- C7: on an instance holding zero runs the average-goal,
standard-deviation-of-goal, success-rate and average-call-count queries
return `none` (no division by zero, no silent NaN — the model is exact
arithmetic over `Option`), and on every instance holding at least one run
each of them returns a present (`some`) value. -/
theorem statistics_empty_queries_none :
    ∀ (s : Statistics) (d : CallCountData) (p : Solution → Bool),
      (s.get_average_goal = none ↔ s.get_run_count = 0) ∧
      (s.get_standard_deviation_goal = none ↔ s.get_run_count = 0) ∧
      (s.get_success_rate p = none ↔ s.get_run_count = 0) ∧
      (d.get_average_call_count = none ↔ d.counts.length = 0) := by
  intro s d p
  refine ⟨?_, ?_, ?_, ?_⟩
  · by_cases h : s.results = [] <;>
      simp [Statistics.get_average_goal, Statistics.get_run_count, h,
        List.length_eq_zero]
  · by_cases h : s.results = [] <;>
      simp [Statistics.get_standard_deviation_goal, Statistics.get_run_count,
        h, List.length_eq_zero]
  · by_cases h : s.results = [] <;>
      simp [Statistics.get_success_rate, Statistics.get_run_count, h,
        List.length_eq_zero]
  · by_cases h : d.counts = [] <;>
      simp [CallCountData.get_average_call_count, h, List.length_eq_zero]

theorem CallCountData.uniteAll_counts_aux (l : List CallCountData)
    (acc : CallCountData) :
    (l.foldl CallCountData.unite acc).counts
      = acc.counts ++ (l.map CallCountData.counts).flatten := by
  induction l generalizing acc with
  | nil => simp
  | cons x t ih =>
    rw [List.foldl_cons, ih]
    simp [CallCountData.unite]

/-- C8: folding `CallCountData::unite` over any partition of a fixed list
of per-run call counts concatenates exactly those counts, the average of
the united instance is the arithmetic mean (sum over count) of all per-run
call counts, and the average only depends on the multiset of counts — it
is invariant under permutation, hence independent of the partition. -/
theorem callcount_unite_average_partition :
    ∀ (parts : List CallCountData),
      (CallCountData.uniteAll parts).counts
          = (parts.map CallCountData.counts).flatten ∧
      ((parts.map CallCountData.counts).flatten ≠ [] →
        (CallCountData.uniteAll parts).get_average_call_count
          = some (((parts.map CallCountData.counts).flatten.sum : ℚ)
              / ((parts.map CallCountData.counts).flatten.length : ℚ))) ∧
      (∀ (l l' : List ℕ), l.Perm l' →
        CallCountData.get_average_call_count ⟨l⟩
          = CallCountData.get_average_call_count ⟨l'⟩) := by
  intro parts
  have hc : (CallCountData.uniteAll parts).counts
      = (parts.map CallCountData.counts).flatten := by
    unfold CallCountData.uniteAll
    rw [CallCountData.uniteAll_counts_aux]
    rfl
  refine ⟨hc, ?_, ?_⟩
  · intro hne
    unfold CallCountData.get_average_call_count
    rw [hc]
    simp [List.isEmpty_iff, hne]
  · intro l l' hperm
    unfold CallCountData.get_average_call_count
    have hl : l.length = l'.length := hperm.length_eq
    have hs : l.sum = l'.sum := hperm.sum_eq
    by_cases h : l = []
    · subst h
      have h0 : l' = [] := by
        have h1 : l'.length = 0 := by simpa using hl.symm
        exact List.eq_nil_of_length_eq_zero h1
      simp [h0]
    · have h' : l' ≠ [] := by
        intro he
        exact h (List.eq_nil_of_length_eq_zero (by rw [hl, he]; rfl))
      simp [List.isEmpty_iff, h, h', hs, hl]

/-- Witness for C8 at a concrete partition and a concrete permutation. -/
theorem callcount_unite_average_partition_witness :
    (CallCountData.uniteAll [⟨[2]⟩, ⟨[4]⟩]).get_average_call_count
        = some ((([⟨[2]⟩, ⟨[4]⟩].map CallCountData.counts).flatten.sum : ℚ)
            / (([⟨[2]⟩, ⟨[4]⟩].map CallCountData.counts).flatten.length : ℚ))
      ∧ CallCountData.get_average_call_count ⟨[1, 2]⟩
        = CallCountData.get_average_call_count ⟨[2, 1]⟩ :=
  ⟨(callcount_unite_average_partition [⟨[2]⟩, ⟨[4]⟩]).2.1 (by decide),
    (callcount_unite_average_partition []).2.2 [1, 2] [2, 1] (by decide)⟩

/-- From `examples/particleswarm-schwefel-statistics.rs`:
`let run_count = 1000 / cpu;` — the number of complete optimizer runs each
worker thread performs (integer division). -/
def runCountPerCpu (cpu : ℕ) : ℕ := 1000 / cpu

theorem Statistics.uniteAll_run_count_aux (l : List Statistics)
    (acc : Statistics) :
    (l.foldl Statistics.unite acc).get_run_count
      = acc.get_run_count + (l.map Statistics.get_run_count).sum := by
  induction l generalizing acc with
  | nil => simp
  | cons x t ih =>
    rw [List.foldl_cons, ih]
    simp [Statistics.get_run_count, Statistics.unite]
    omega

theorem Statistics.uniteAll_run_count (l : List Statistics) :
    (Statistics.uniteAll l).get_run_count
      = (l.map Statistics.get_run_count).sum := by
  unfold Statistics.uniteAll
  rw [Statistics.uniteAll_run_count_aux]
  simp [Statistics.get_run_count]

/-- C10: in the Schwefel statistics example, each of the `cpu` worker
threads performs exactly `1000 / cpu` (integer division) complete runs and
unites one single-run `Statistics` per run, so the coordinator's final
aggregate counts `cpu * (1000 / cpu)` runs — at most 1000, and strictly
fewer than 1000 whenever `cpu` does not divide 1000. -/
theorem schwefel_statistics_total_run_count :
    ∀ (cpu : ℕ) (workers : List (List Statistics)),
      0 < cpu →
      workers.length = cpu →
      (∀ w ∈ workers, w.length = runCountPerCpu cpu
        ∧ ∀ s ∈ w, s.get_run_count = 1) →
      (Statistics.uniteAll (workers.map Statistics.uniteAll)).get_run_count
          = cpu * runCountPerCpu cpu
        ∧ cpu * runCountPerCpu cpu ≤ 1000
        ∧ (¬ cpu ∣ 1000 → cpu * runCountPerCpu cpu < 1000) := by
  intro cpu workers hcpu hlen hw
  have hdm : cpu * (1000 / cpu) + 1000 % cpu = 1000 := Nat.div_add_mod 1000 cpu
  have hworker : ∀ w ∈ workers,
      (Statistics.uniteAll w).get_run_count = runCountPerCpu cpu := by
    intro w hwmem
    obtain ⟨hwl, hws⟩ := hw w hwmem
    rw [Statistics.uniteAll_run_count]
    have hrep : w.map Statistics.get_run_count
        = List.replicate (w.map Statistics.get_run_count).length 1 := by
      apply List.eq_replicate_iff.mpr
      refine ⟨rfl, ?_⟩
      intro b hb
      obtain ⟨s, hs, hbe⟩ := List.mem_map.mp hb
      rw [← hbe]
      exact hws s hs
    rw [hrep]
    simp [hwl]
  have hcount :
      (Statistics.uniteAll (workers.map Statistics.uniteAll)).get_run_count
        = cpu * runCountPerCpu cpu := by
    rw [Statistics.uniteAll_run_count, List.map_map]
    have hrep : workers.map (Statistics.get_run_count ∘ Statistics.uniteAll)
        = List.replicate workers.length (runCountPerCpu cpu) := by
      apply List.eq_replicate_iff.mpr
      refine ⟨by simp, ?_⟩
      intro b hb
      obtain ⟨w, hwm, hbe⟩ := List.mem_map.mp hb
      rw [← hbe]
      exact hworker w hwm
    rw [hrep, hlen]
    simp [Nat.mul_comm]
  refine ⟨hcount, ?_, ?_⟩
  · unfold runCountPerCpu
    omega
  · intro hnd
    have hmod : 1000 % cpu ≠ 0 := fun h0 => hnd (Nat.dvd_of_mod_eq_zero h0)
    unfold runCountPerCpu
    omega

/-- Witness for C10 at `cpu = 3` (which does not divide 1000): three
workers of 333 single-run statistics each. -/
theorem schwefel_statistics_total_run_count_witness :
    (Statistics.uniteAll
        ((List.replicate 3 (List.replicate 333
          (⟨[none], []⟩ : Statistics))).map Statistics.uniteAll)).get_run_count
        = 3 * runCountPerCpu 3
      ∧ 3 * runCountPerCpu 3 ≤ 1000
      ∧ (¬ (3 : ℕ) ∣ 1000 → 3 * runCountPerCpu 3 < 1000) :=
  schwefel_statistics_total_run_count 3
    (List.replicate 3 (List.replicate 333 ⟨[none], []⟩))
    (by decide) (by rw [List.length_replicate])
    (by
      intro w hwm
      rw [List.eq_of_mem_replicate hwm]
      refine ⟨by rw [List.length_replicate]; decide, ?_⟩
      intro s hs
      rw [List.eq_of_mem_replicate hs]
      rfl)

/-- Modelled from the spec: the `MoveToBoundary` post-move (from the
missing `ew::particleswarm::postmove`) clips each coordinate of a
particle's position to its per-dimension interval boundary. -/
def moveToBoundary (intervals : List (ℚ × ℚ)) (x : Solution) : Solution :=
  List.zipWith
    (fun iv xi => if xi < iv.1 then iv.1 else if iv.2 < xi then iv.2 else xi)
    intervals x

/-- C5: for a run with `MoveToBoundary` applied last, every particle
position produced by the post-move step lies within its configured
per-dimension interval — stated for an arbitrary swarm of pre-step
positions, hence for every particle of every iteration. -/
theorem moveToBoundary_within_intervals :
    ∀ (intervals : List (ℚ × ℚ)),
      (∀ iv ∈ intervals, iv.1 ≤ iv.2) →
      ∀ (positions : List Solution) (x : Solution),
        x ∈ positions.map (moveToBoundary intervals) →
        ∀ (i : ℕ) (hi : i < x.length) (hi2 : i < intervals.length),
          (intervals.get ⟨i, hi2⟩).1 ≤ x.get ⟨i, hi⟩
            ∧ x.get ⟨i, hi⟩ ≤ (intervals.get ⟨i, hi2⟩).2 := by
  intro intervals hiv positions x hx i hi hi2
  obtain ⟨x0, _, hxe⟩ := List.mem_map.mp hx
  subst hxe
  have hlt : i < x0.length := by
    have hlen := hi
    simp only [moveToBoundary, List.length_zipWith, lt_min_iff] at hlen
    exact hlen.2
  have hbound := hiv (intervals.get ⟨i, hi2⟩) (intervals.get_mem i hi2)
  have hget : (moveToBoundary intervals x0).get ⟨i, hi⟩
      = (if x0.get ⟨i, hlt⟩ < (intervals.get ⟨i, hi2⟩).1
          then (intervals.get ⟨i, hi2⟩).1
          else if (intervals.get ⟨i, hi2⟩).2 < x0.get ⟨i, hlt⟩
            then (intervals.get ⟨i, hi2⟩).2
            else x0.get ⟨i, hlt⟩) := by
    simp [moveToBoundary, List.getElem_zipWith]
  rw [hget]
  by_cases h1 : x0.get ⟨i, hlt⟩ < (intervals.get ⟨i, hi2⟩).1
  · simp only [h1, if_pos]
    exact ⟨le_refl _, hbound⟩
  · by_cases h2 : (intervals.get ⟨i, hi2⟩).2 < x0.get ⟨i, hlt⟩
    · simp only [h1, h2, if_neg, if_pos, not_false_iff]
      exact ⟨hbound, le_refl _⟩
    · simp only [h1, h2, if_neg, not_false_iff]
      exact ⟨le_of_not_lt h1, le_of_not_lt h2⟩

/-- Witness for C5: the position `[5]` clipped to the interval `[0, 1]`
lands inside the interval. -/
theorem moveToBoundary_within_intervals_witness :
    ([((0 : ℚ), 1)].get ⟨0, by decide⟩).1
        ≤ (moveToBoundary [((0 : ℚ), 1)] [5]).get ⟨0, by decide⟩
      ∧ (moveToBoundary [((0 : ℚ), 1)] [5]).get ⟨0, by decide⟩
        ≤ ([((0 : ℚ), 1)].get ⟨0, by decide⟩).2 :=
  moveToBoundary_within_intervals [((0 : ℚ), 1)] (by decide)
    [[5]] (moveToBoundary [((0 : ℚ), 1)] [5]) (by decide)
    0 (by decide) (by decide)

/-- Modelled from the spec: the state a stop checker inspects at each
call — the current iteration count and the current best goal value. -/
structure CheckerState where
  iteration : ℕ
  bestGoal : ℚ

/-- Modelled from the spec: the `MaxIterations(n)` stop checker (from the
missing `ew::tools::stopchecker`) — true when the iteration count has
reached `n`. -/
def maxIterations (n : ℕ) (st : CheckerState) : Bool :=
  decide (n ≤ st.iteration)

/-- Modelled from the spec: the `Threshold(t)` stop checker — true when
the current best goal value is at or below `t`. -/
def threshold (t : ℚ) (st : CheckerState) : Bool :=
  decide (st.bestGoal ≤ t)

/-- Modelled from the spec: the `CompositeAny` stop checker — true when
any child checker returns true (logical OR over the children). -/
def compositeAny (checks : List (CheckerState → Bool)) (st : CheckerState) :
    Bool :=
  checks.any (fun c => c st)

/-- The number of completed iterations after which the optimizer loop
first observes a `true` stop check, the checker being queried at the end
of each iteration with the count of completed iterations. -/
def firstStopIteration (stop : ℕ → Bool) (h : ∃ i, stop i = true) : ℕ :=
  Nat.find h

/-- C6: `MaxIterations(n)` fires exactly when the iteration count is at
least `n`; `CompositeAny` fires exactly when some child fires; hence a
loop whose `CompositeAny` stop checker contains `MaxIterations(n)` stops
after at most `n` iterations. -/
theorem stopchecker_maxiterations_compositeany :
    (∀ (n : ℕ) (st : CheckerState),
      maxIterations n st = true ↔ n ≤ st.iteration) ∧
    (∀ (checks : List (CheckerState → Bool)) (st : CheckerState),
      compositeAny checks st = true ↔ ∃ c ∈ checks, c st = true) ∧
    (∀ (n : ℕ) (checks : List (CheckerState → Bool))
        (states : ℕ → CheckerState),
      maxIterations n ∈ checks →
      (∀ i, (states i).iteration = i) →
      ∀ h : ∃ i, compositeAny checks (states i) = true,
        firstStopIteration (fun i => compositeAny checks (states i)) h ≤ n) := by
  refine ⟨?_, ?_, ?_⟩
  · intro n st
    simp [maxIterations]
  · intro checks st
    simp [compositeAny, List.any_eq_true]
  · intro n checks states hmem hiter h
    have hfire : compositeAny checks (states n) = true := by
      apply List.any_eq_true.mpr
      exact ⟨maxIterations n, hmem, by simp [maxIterations, hiter n]⟩
    exact Nat.find_le hfire

/-- Witness for C6: a composite made of `MaxIterations(2)` alone, on the
iteration trace `0, 1, 2, …`, first fires at an iteration count of at
most 2. -/
theorem stopchecker_maxiterations_compositeany_witness :
    firstStopIteration
        (fun i => compositeAny [maxIterations 2] ⟨i, 0⟩)
        ⟨2, by decide⟩ ≤ 2 :=
  stopchecker_maxiterations_compositeany.2.2 2 [maxIterations 2]
    (fun i => ⟨i, 0⟩) (List.mem_singleton.mpr rfl) (fun _ => rfl)
    ⟨2, by decide⟩

/-- Sum of squares of a vector's components. -/
def sumsq (v : List ℝ) : ℝ := (v.map (fun x => x * x)).sum

/-- Euclidean magnitude of a velocity vector. -/
noncomputable def vecAbs (v : List ℝ) : ℝ := Real.sqrt (sumsq v)

/-- Modelled from the spec: the `MaxVelocityAbs(m)` post-velocity clamp
(from the missing `ew::particleswarm::postvelocitycalc`) — a velocity
vector whose Euclidean magnitude exceeds `m` is rescaled to magnitude
`m`; otherwise it is returned unchanged. -/
noncomputable def maxVelocityAbs (m : ℝ) (v : List ℝ) : List ℝ :=
  if vecAbs v ≤ m then v else v.map (fun x => x * (m / vecAbs v))

theorem sumsq_nonneg (v : List ℝ) : 0 ≤ sumsq v := by
  apply List.sum_nonneg
  intro x hx
  obtain ⟨y, _, hye⟩ := List.mem_map.mp hx
  rw [← hye]
  exact mul_self_nonneg y

theorem sumsq_map_mul (v : List ℝ) (c : ℝ) :
    sumsq (v.map (fun x => x * c)) = sumsq v * c ^ 2 := by
  induction v with
  | nil => simp [sumsq]
  | cons x t ih =>
    simp only [List.map_cons, sumsq, List.sum_cons] at ih ⊢
    rw [ih]
    ring

theorem vecAbs_map_mul (v : List ℝ) (c : ℝ) (hc : 0 ≤ c) :
    vecAbs (v.map (fun x => x * c)) = vecAbs v * c := by
  unfold vecAbs
  rw [sumsq_map_mul, Real.sqrt_mul (sumsq_nonneg v), Real.sqrt_sq hc]

/-- C4: for a run with the `MaxVelocityAbs(m)` post-velocity clamp
(`m ≥ 0`), every particle velocity produced by the clamp step has
Euclidean magnitude at most `m` — stated for an arbitrary swarm of
pre-clamp velocities, hence for every particle of every iteration (exact
real arithmetic in place of floating point). -/
theorem maxVelocityAbs_bounds_velocity :
    ∀ (m : ℝ), 0 ≤ m →
      ∀ (velocities : List (List ℝ)) (v : List ℝ),
        v ∈ velocities.map (maxVelocityAbs m) →
        vecAbs v ≤ m := by
  intro m hm velocities v hv
  obtain ⟨v0, _, hve⟩ := List.mem_map.mp hv
  subst hve
  unfold maxVelocityAbs
  by_cases h : vecAbs v0 ≤ m
  · rw [if_pos h]
    exact h
  · rw [if_neg h]
    push_neg at h
    have ha : 0 < vecAbs v0 := lt_of_le_of_lt hm h
    rw [vecAbs_map_mul v0 (m / vecAbs v0) (div_nonneg hm ha.le), mul_comm,
      div_mul_cancel₀ m ha.ne']

/-- Witness for C4: the velocity `[3, 4]` (magnitude 5) clamped by
`MaxVelocityAbs(1)` has magnitude at most 1. -/
theorem maxVelocityAbs_bounds_velocity_witness :
    vecAbs (maxVelocityAbs 1 [3, 4]) ≤ 1 :=
  maxVelocityAbs_bounds_velocity 1 zero_le_one [[3, 4]]
    (maxVelocityAbs 1 [3, 4]) (List.mem_singleton.mpr rfl)

/-- Modelled from the spec: the running global best is updated with each
newly evaluated `(position, goal)` pair; an improvement replaces it, a
tie keeps the earlier-found best. -/
def updateBest (best : Option (Solution × ℚ)) (cand : Solution × ℚ) :
    Option (Solution × ℚ) :=
  match best with
  | none => some cand
  | some b => if cand.2 < b.2 then some cand else some b

/-- Modelled from the spec: one evaluation pass — every particle position
is evaluated by the goal function and folded into the global best. -/
def evalSwarm (goal : Solution → ℚ) (positions : List Solution)
    (best : Option (Solution × ℚ)) : Option (Solution × ℚ) :=
  positions.foldl (fun b x => updateBest b (x, goal x)) best

/-- Modelled from the spec: one PSO iteration — the movement phase
(velocity update, clamps and post-moves, abstracted as an arbitrary
transformation of the swarm's positions) followed by an evaluation pass
updating the global best. -/
def psoIter (goal : Solution → ℚ)
    (st : List Solution × Option (Solution × ℚ))
    (step : List Solution → List Solution) :
    List Solution × Option (Solution × ℚ) :=
  (step st.1, evalSwarm goal (step st.1) st.2)

/-- Modelled from the spec: the PSO `find_min` (from the missing
`ew::particleswarm`) — the initializer produces the initial positions,
the initial evaluation pass sets the global best, the iterations run, and
the final global best is returned (`none` when no particle was ever
evaluated). -/
def psoFindMin (goal : Solution → ℚ) (initPositions : List Solution)
    (steps : List (List Solution → List Solution)) :
    Option (Solution × ℚ) :=
  (steps.foldl (psoIter goal) (initPositions, evalSwarm goal initPositions none)).2

/-- Modelled from the spec: the GA `find_min` (from the missing
`ew::genetic`) — generation steps (pairing, crossover, mutation,
pre-birth filtering, selection, abstracted as arbitrary population
transformers) evolve the population; the fittest individual of the final
population is returned, `none` when it is empty. -/
def gaFindMin (initPop : List (Solution × ℚ))
    (gens : List (List (Solution × ℚ) → List (Solution × ℚ))) :
    Option (Solution × ℚ) :=
  (gens.foldl (fun pop g => g pop) initPop).foldl updateBest none

theorem updateBest_ne_none (b : Option (Solution × ℚ)) (c : Solution × ℚ) :
    updateBest b c ≠ none := by
  cases b with
  | none => simp [updateBest]
  | some bb =>
    simp only [updateBest]
    split <;> simp

theorem evalSwarm_eq_none_iff (goal : Solution → ℚ) (ps : List Solution)
    (b : Option (Solution × ℚ)) :
    evalSwarm goal ps b = none ↔ (ps = [] ∧ b = none) := by
  induction ps generalizing b with
  | nil => simp [evalSwarm]
  | cons x t ih =>
    simp only [evalSwarm, List.foldl_cons] at ih ⊢
    rw [ih]
    simp [updateBest_ne_none]

theorem updateBest_valid (goal : Solution → ℚ) (b : Option (Solution × ℚ))
    (c : Solution × ℚ) (hc : c.2 = goal c.1)
    (hb : ∀ s g, b = some (s, g) → g = goal s) :
    ∀ s g, updateBest b c = some (s, g) → g = goal s := by
  intro s g hup
  cases b with
  | none =>
    simp only [updateBest] at hup
    injection hup with h1
    subst h1
    simpa using hc
  | some bb =>
    simp only [updateBest] at hup
    split at hup
    · injection hup with h1
      subst h1
      simpa using hc
    · injection hup with h1
      exact hb s g (by rw [h1])

theorem evalSwarm_valid (goal : Solution → ℚ) (ps : List Solution)
    (b : Option (Solution × ℚ))
    (hb : ∀ s g, b = some (s, g) → g = goal s) :
    ∀ s g, evalSwarm goal ps b = some (s, g) → g = goal s := by
  induction ps generalizing b with
  | nil => exact hb
  | cons x t ih =>
    simp only [evalSwarm, List.foldl_cons] at ih ⊢
    exact ih (updateBest b (x, goal x))
      (updateBest_valid goal b (x, goal x) rfl hb)

theorem psoLoop_empty (goal : Solution → ℚ) :
    ∀ (steps : List (List Solution → List Solution)),
      (∀ f ∈ steps, f [] = []) →
      steps.foldl (psoIter goal) ([], none) = ([], none) := by
  intro steps
  induction steps with
  | nil => intro _; rfl
  | cons f t ih =>
    intro hsteps
    rw [List.foldl_cons]
    have hf : f [] = [] := hsteps f (List.mem_cons_self f t)
    have hstep : psoIter goal ([], none) f = ([], none) := by
      simp [psoIter, hf, evalSwarm]
    rw [hstep]
    exact ih (fun g hg => hsteps g (List.mem_cons_of_mem f hg))

theorem psoLoop_some (goal : Solution → ℚ)
    (steps : List (List Solution → List Solution))
    (st : List Solution × Option (Solution × ℚ)) (hb : st.2 ≠ none) :
    (steps.foldl (psoIter goal) st).2 ≠ none := by
  induction steps generalizing st with
  | nil => exact hb
  | cons f t ih =>
    rw [List.foldl_cons]
    apply ih
    simp only [psoIter]
    intro hnone
    rw [evalSwarm_eq_none_iff] at hnone
    exact hb hnone.2

theorem psoLoop_valid (goal : Solution → ℚ)
    (steps : List (List Solution → List Solution))
    (st : List Solution × Option (Solution × ℚ))
    (hst : ∀ s g, st.2 = some (s, g) → g = goal s) :
    ∀ s g, (steps.foldl (psoIter goal) st).2 = some (s, g) → g = goal s := by
  induction steps generalizing st with
  | nil => exact hst
  | cons f t ih =>
    rw [List.foldl_cons]
    exact ih (psoIter goal st f)
      (evalSwarm_valid goal (f st.1) st.2 hst)

theorem gaLoop_empty :
    ∀ (gens : List (List (Solution × ℚ) → List (Solution × ℚ))),
      (∀ f ∈ gens, f [] = []) →
      gens.foldl (fun pop g => g pop) [] = [] := by
  intro gens
  induction gens with
  | nil => intro _; rfl
  | cons f t ih =>
    intro hgens
    rw [List.foldl_cons]
    have hf : f [] = [] := hgens f (List.mem_cons_self f t)
    rw [hf]
    exact ih (fun g hg => hgens g (List.mem_cons_of_mem f hg))

/-- C9: a PSO run over an empty swarm returns `none`, and `find_min`
returns `none` exactly when the swarm was empty (no particle was ever
produced by initialization); any returned pair carries the true goal
value of the returned solution — never a fabricated one — and the model
is total, so no panic is possible; a GA run whose population is empty
(zero individuals created, and no generation step can invent members)
likewise returns `none`. -/
theorem findmin_none_iff_empty :
    ∀ (goal : Solution → ℚ) (steps : List (List Solution → List Solution)),
      (∀ f ∈ steps, f [] = []) →
      ∀ (initPositions : List Solution),
        (psoFindMin goal initPositions steps = none ↔ initPositions = []) ∧
        (∀ s g, psoFindMin goal initPositions steps = some (s, g) →
          g = goal s) ∧
        (∀ (gens : List (List (Solution × ℚ) → List (Solution × ℚ))),
          (∀ f ∈ gens, f [] = []) → gaFindMin [] gens = none) := by
  intro goal steps hsteps init
  refine ⟨⟨?_, ?_⟩, ?_, ?_⟩
  · intro hnone
    by_contra hne
    have hb0 : evalSwarm goal init none ≠ none := by
      rw [Ne, evalSwarm_eq_none_iff]
      intro h
      exact hne h.1
    unfold psoFindMin at hnone
    exact psoLoop_some goal steps (init, evalSwarm goal init none) hb0 hnone
  · intro he
    subst he
    show (steps.foldl (psoIter goal) ([], none)).2 = none
    rw [psoLoop_empty goal steps hsteps]
  · exact psoLoop_valid goal steps (init, evalSwarm goal init none)
      (evalSwarm_valid goal init none (fun s g h => Option.noConfusion h))
  · intro gens hgens
    unfold gaFindMin
    rw [gaLoop_empty gens hgens]
    rfl

/-- Witness for C9: with an empty swarm and an empty population both
optimizers return `none`. -/
theorem findmin_none_iff_empty_witness :
    psoFindMin (fun _ => (0 : ℚ)) [] [] = none
      ∧ gaFindMin [] [] = none :=
  ⟨((findmin_none_iff_empty (fun _ => (0 : ℚ)) []
      (fun f hf => absurd hf (List.not_mem_nil f)) []).1).mpr rfl,
    (findmin_none_iff_empty (fun _ => (0 : ℚ)) []
      (fun f hf => absurd hf (List.not_mem_nil f)) []).2.2 []
      (fun f hf => absurd hf (List.not_mem_nil f))⟩
